import Mathlib

/-!
# Orange record, ordered list and bucketed cache

A shallow embedding of `orange.c` (the constructor `orangeCreate`) and of the
interfaces declared in `list.h` and `cache.h`.

* `orange.c` is embedded from its code.  The header `orange.h` it includes is not part of
  the sources, so the three constants it takes from there (`ORANGE_MAX_SIZE`, `JAN`, `DEC`)
  are parameters, collected in `OrangeHeader`.
* `list.c` and `cache.c` are not part of the sources.  The operations of `list.h` and
  `cache.h` used below are modelled from the specification, with the types of their
  declarations in the two headers.
-/

namespace Atm

/-! ## The orange record (`orange.c`) -/

/-- The constants `orange.c` takes from the header `orange.h`. -/
structure OrangeHeader where
  ORANGE_MAX_SIZE : Int
  JAN : Int
  DEC : Int

/-- The constant `ORANGE_MIN_SIZE` of `orange.c`, defined as 1. -/
def ORANGE_MIN_SIZE : Int := 1

/-- The largest value of the C type `short` (16 bits), the type of the `size` argument. -/
def SHRT_MAX : Int := 32767

/-- The fields of `struct orange_t` that `orangeCreate` writes.  `foodCompanies` is a pointer
to a block of `char *` cells: it is the content of the memory from that address on, by cell
offset (`none` is a NULL cell). -/
structure Orange where
  size : Int
  expirationMonth : Int
  maxNumberOfFoodCompanies : Int
  sellingPrice : Int
  foodCompanies : Nat → Option String

/-- The loop `for (int i = 0; i < maxNumberOfFoodCompanies; i++) foodCompanies[i] = NULL;`
from the iteration with index `i` on. -/
def clearFoodCompanies (maxNumberOfFoodCompanies : Int) (i : Nat)
    (foodCompanies : Nat → Option String) : Nat → Option String :=
  if (i : Int) < maxNumberOfFoodCompanies then
    clearFoodCompanies maxNumberOfFoodCompanies (i + 1)
      (fun j => if j = i then none else foodCompanies j)
  else foodCompanies
termination_by (maxNumberOfFoodCompanies - i).toNat
decreasing_by omega

/-- The function `orangeCreate` of `orange.c`.  The two calls of `malloc` are the arguments `structAlloc`
(whether the allocation of the record succeeds) and `arrayAlloc` (`none` when the allocation
of the company array fails, otherwise the uninitialised content of the memory at the
returned address).  The result `none` is NULL. -/
def orangeCreate (h : OrangeHeader) (structAlloc : Bool)
    (arrayAlloc : Option (Nat → Option String))
    (size expirationMonth maxNumberOfFoodCompanies sellingPrice : Int) : Option Orange :=
  if size < h.ORANGE_MAX_SIZE ∨ size < ORANGE_MIN_SIZE
      ∨ expirationMonth < h.JAN ∨ expirationMonth > h.DEC
      ∨ sellingPrice ≤ 0 ∨ maxNumberOfFoodCompanies ≤ 0 then none
  else if structAlloc = false then none
  else match arrayAlloc with
    | none => none
    | some block =>
      some { size := size
             expirationMonth := expirationMonth
             maxNumberOfFoodCompanies := maxNumberOfFoodCompanies
             sellingPrice := sellingPrice
             foodCompanies := clearFoodCompanies maxNumberOfFoodCompanies 0 block }

/-- Length of the company list of an orange: the number of non-NULL cells among the
`maxNumberOfFoodCompanies` cells of its company array. -/
def orangeCompanyCount (o : Orange) : Nat :=
  ((List.range o.maxNumberOfFoodCompanies.toNat).filter
    (fun i => (o.foodCompanies i).isSome)).length

/-- A header with `ORANGE_MAX_SIZE = 256` and the months numbered 1 to 12. -/
def sampleHeader : OrangeHeader := ⟨256, 1, 12⟩

/-- Uninitialised memory in which every cell holds a stale non-NULL pointer. -/
def staleBlock : Nat → Option String := fun _ => some "stale"

/-- The orange built from size 256, month 1, capacity 3 and price 10 in `staleBlock`. -/
def sampleOrange : Orange :=
  { size := 256, expirationMonth := 1, maxNumberOfFoodCompanies := 3, sellingPrice := 10
    foodCompanies := clearFoodCompanies 3 0 staleBlock }

/-! ## The ordered list (`list.h`) -/

/-- The enumeration `ListResult_t` of `list.h`. -/
inductive ListResult where
  | LIST_SUCCESS
  | LIST_NULL_ARGUMENT
  | LIST_OUT_OF_MEMORY
  | LIST_INVALID_CURRENT
  deriving DecidableEq, Repr

/-- Modelled from the spec: `struct List_t`, the type behind the handle `List` of `list.h`,
is defined in list.c, which is missing.  A list is the ordered sequence of its records and
a "current" reference that is either a position in the list or the invalid state (`none`).
A handle is an `Option OrangeList`, `none` being NULL. -/
structure OrangeList where
  elems : List Orange
  current : Option Nat

/-- Modelled from the spec: `listGetSize` of list.c, which is missing.  The element count,
or -1 for a NULL list. -/
def listGetSize : Option OrangeList → Int
  | none => -1
  | some l => l.elems.length

/-- Modelled from the spec: `listGetFirst` of list.c, which is missing.  Moves the cursor to
position 0 and returns that record; NULL for a NULL list or a list with no elements.  The
result is the returned record and the list afterwards. -/
def listGetFirst : Option OrangeList → Option Orange × Option OrangeList
  | none => (none, none)
  | some l =>
    match l.elems with
    | [] => (none, some { l with current := none })
    | o :: _ => (some o, some { l with current := some 0 })

/-- Modelled from the spec: `listGetNext` of list.c, which is missing.  Advances the cursor
one position and returns the record there; returns NULL when the cursor is invalid, and
once past the last element, which leaves the cursor invalid. -/
def listGetNext : Option OrangeList → Option Orange × Option OrangeList
  | none => (none, none)
  | some l =>
    match l.current with
    | none => (none, some l)
    | some i =>
      match l.elems[i + 1]? with
      | some o => (some o, some { l with current := some (i + 1) })
      | none => (none, some { l with current := none })

/-- Modelled from the spec: `listGetCurrent` of list.c, which is missing.  The record at the
cursor, without moving it; NULL if the cursor is invalid or the list is NULL. -/
def listGetCurrent : Option OrangeList → Option Orange
  | none => none
  | some l =>
    match l.current with
    | none => none
    | some i => l.elems[i]?

/-- Modelled from the spec: `listRemoveCurrent` of list.c, which is missing.  Removes the
record at the cursor; `LIST_INVALID_CURRENT` if the cursor is invalid; on success the
cursor becomes invalid.  The result is the code and the list afterwards. -/
def listRemoveCurrent : Option OrangeList → ListResult × Option OrangeList
  | none => (ListResult.LIST_NULL_ARGUMENT, none)
  | some l =>
    match l.current with
    | none => (ListResult.LIST_INVALID_CURRENT, some l)
    | some i =>
      if i < l.elems.length then
        (ListResult.LIST_SUCCESS, some { elems := l.elems.eraseIdx i, current := none })
      else (ListResult.LIST_INVALID_CURRENT, some l)

/-- A list has a valid current element when its cursor is a position inside the list. -/
def hasValidCurrent (l : OrangeList) : Bool :=
  match l.current with
  | none => false
  | some i => decide (i < l.elems.length)

/-! ## The bucketed cache (`cache.h`) -/

/-- The constant `ORANGE_CACHE_SIZE` of `cache.h`, defined as 256. -/
def ORANGE_CACHE_SIZE : Int := 256

/-- The enumeration `CacheResult_t` of `cache.h`. -/
inductive CacheResult where
  | CACHE_SUCCESS
  | CACHE_ILLEGAL_ARGUMENT
  | CACHE_OUT_OF_MEMORY
  | CACHE_OUT_OF_RANGE
  | CACHE_NO_ELEMENTS_IN_CELL
  | CACHE_SUCCESS_LIST_EMPTY
  deriving DecidableEq, Repr

/-- The structure `cache_t` of `cache.h`: the array `container` of the bucket lists, `cache_size`,
and the cache cursor `iterator`, a handle of one of the buckets (its index; `none` is
NULL). -/
structure Cache where
  container : List OrangeList
  cache_size : Int
  iterator : Option Nat

/-- Modelled from the spec: the accessor of the weight of a record (`orangeGetWeight` in the
comments of list.h, `orangeGetSize` in those of cache.h) is in the record module, which is
missing.  The weight of a record is its size attribute. -/
def orangeGetWeight (o : Orange) : Int := o.size

/-- Modelled from the spec: the position `cacheFreeOrange` and `cacheGet` of cache.c (which is
missing) operate on, "that bucket's current cursor position".  The spec names no failure
for a non-empty bucket, so with an invalid cursor the position is the first one. -/
def bucketPosition (bucket : OrangeList) : Nat :=
  match bucket.current with
  | none => 0
  | some i => if i < bucket.elems.length then i else 0

/-- Modelled from the spec: `cacheFreeOrange` of cache.c, which is missing.  Removes one
element from the bucket with the given index, at that bucket's cursor position;
illegal-argument for a NULL cache, out-of-range if the index is outside the bounds
0..ORANGE_CACHE_SIZE-1, no-elements-in-cell if the bucket is empty.  The result is the code
and the cache afterwards. -/
def cacheFreeOrange : Option Cache → Int → CacheResult × Option Cache
  | none, _ => (CacheResult.CACHE_ILLEGAL_ARGUMENT, none)
  | some cache, index =>
    if index < 0 ∨ ORANGE_CACHE_SIZE ≤ index then (CacheResult.CACHE_OUT_OF_RANGE, some cache)
    else
      match cache.container[index.toNat]? with
      | none => (CacheResult.CACHE_OUT_OF_RANGE, some cache)
      | some bucket =>
        if bucket.elems.isEmpty then (CacheResult.CACHE_NO_ELEMENTS_IN_CELL, some cache)
        else
          (CacheResult.CACHE_SUCCESS,
            some { cache with
              container := cache.container.set index.toNat
                { elems := bucket.elems.eraseIdx (bucketPosition bucket), current := none } })

/-- Modelled from the spec: `cacheGet` of cache.c, which is missing.  Removes the element at
the cursor position of the bucket with the given index and hands it to the caller through
the output parameter `org`; fails as `cacheFreeOrange` does.  The result is the code, the
record stored through `org` (`none` when nothing is stored) and the cache afterwards. -/
def cacheGet : Option Cache → Int → CacheResult × Option Orange × Option Cache
  | none, _ => (CacheResult.CACHE_ILLEGAL_ARGUMENT, none, none)
  | some cache, index =>
    if index < 0 ∨ ORANGE_CACHE_SIZE ≤ index then
      (CacheResult.CACHE_OUT_OF_RANGE, none, some cache)
    else
      match cache.container[index.toNat]? with
      | none => (CacheResult.CACHE_OUT_OF_RANGE, none, some cache)
      | some bucket =>
        if bucket.elems.isEmpty then (CacheResult.CACHE_NO_ELEMENTS_IN_CELL, none, some cache)
        else
          (CacheResult.CACHE_SUCCESS, bucket.elems[bucketPosition bucket]?,
            some { cache with
              container := cache.container.set index.toNat
                { elems := bucket.elems.eraseIdx (bucketPosition bucket), current := none } })

/-- Modelled from the spec: the search of the maximum weight inside one bucket, a step of
`cacheDeliverOrangesWithBiggestWeight` of cache.c, which is missing.  `best` is the largest
weight seen so far (`none` before the first record). -/
def maxWeightInList (best : Option Int) : List Orange → Option Int
  | [] => best
  | o :: rest =>
    match best with
    | none => maxWeightInList (some (orangeGetWeight o)) rest
    | some b =>
      if b < orangeGetWeight o then maxWeightInList (some (orangeGetWeight o)) rest
      else maxWeightInList (some b) rest

/-- Modelled from the spec: the search of "the maximum weight attribute across all records in
all buckets", a step of `cacheDeliverOrangesWithBiggestWeight` of cache.c, which is
missing.  The buckets are scanned in index order. -/
def maxWeightInBuckets (best : Option Int) : List OrangeList → Option Int
  | [] => best
  | bucket :: rest => maxWeightInBuckets (maxWeightInList best bucket.elems) rest

/-- Modelled from the spec: the collection step of `cacheDeliverOrangesWithBiggestWeight` of
cache.c (which is missing) inside one bucket: the records of weight `m` are collected, in
their order in the bucket, and removed.  The result is the collected records and the
records left in the bucket. -/
def extractFromList (m : Int) : List Orange → List Orange × List Orange
  | [] => ([], [])
  | o :: rest =>
    let r := extractFromList m rest
    if orangeGetWeight o = m then (o :: r.1, r.2) else (r.1, o :: r.2)

/-- Modelled from the spec: the collection step of `cacheDeliverOrangesWithBiggestWeight` of
cache.c (which is missing) across the buckets, in bucket-index order.  The scan of a bucket
ends past its last element, which leaves the cursor of the bucket invalid. -/
def extractFromBuckets (m : Int) : List OrangeList → List Orange × List OrangeList
  | [] => ([], [])
  | bucket :: rest =>
    let here := extractFromList m bucket.elems
    let r := extractFromBuckets m rest
    (here.1 ++ r.1, { elems := here.2, current := none } :: r.2)

/-- Modelled from the spec: `cacheDeliverOrangesWithBiggestWeight` of cache.c, which is
missing; its declaration in `cache.h` returns a `List`, NULL in case of error.  It "finds the
maximum weight attribute across all records in all buckets; collects and removes from the
cache every record whose weight equals that maximum, across all buckets, in (bucket-index,
in-bucket-order) order, returning them as one new list"; on an entirely empty cache the
result is a success with an empty result, here the empty list.  The scan of the buckets
leaves the cursor of every bucket and the cursor of the cache invalid.  The result is the
returned handle and the cache afterwards. -/
def cacheDeliverOrangesWithBiggestWeight : Option Cache → Option OrangeList × Option Cache
  | none => (none, none)
  | some cache =>
    match maxWeightInBuckets none cache.container with
    | none =>
      (some { elems := [], current := none },
        some { cache with
          container := cache.container.map (fun bucket => { bucket with current := none })
          iterator := none })
    | some m =>
      (some { elems := (extractFromBuckets m cache.container).1, current := none },
        some { cache with
          container := (extractFromBuckets m cache.container).2, iterator := none })

/-- Whether no bucket of the cache holds a record. -/
def cacheIsEmpty (cache : Cache) : Bool :=
  cache.container.all (fun bucket => bucket.elems.isEmpty)

/-- The weight `m` is the maximum weight over all records in all buckets of the cache. -/
def IsMaxWeight (cache : Cache) (m : Int) : Prop :=
  (∃ bucket ∈ cache.container, ∃ o ∈ bucket.elems, orangeGetWeight o = m)
  ∧ ∀ bucket ∈ cache.container, ∀ o ∈ bucket.elems, orangeGetWeight o ≤ m

/-- The records of weight `m` of the cache, ordered by ascending bucket index and then by
position inside the bucket. -/
def recordsOfWeight (m : Int) (cache : Cache) : List Orange :=
  cache.container.flatMap (fun bucket => bucket.elems.filter (fun o => orangeGetWeight o = m))

/-- The content of the buckets of a cache, bucket by bucket. -/
def bucketContents (cache : Cache) : List (List Orange) :=
  cache.container.map (fun bucket => bucket.elems)

/-- A record of the given weight. -/
def orangeOfWeight (w : Int) : Orange :=
  { size := w, expirationMonth := 1, maxNumberOfFoodCompanies := 1, sellingPrice := 1
    foodCompanies := fun _ => none }

/-- A bucket holding records of the given weights, in that order, with an invalid cursor. -/
def bucketOfWeights (ws : List Int) : OrangeList :=
  { elems := ws.map orangeOfWeight, current := none }

/-- A cache of 256 buckets: bucket 0 holds the weights 3, 7, 7, 2, bucket 1 holds the weights
7, 1, and the other 254 buckets are empty. -/
def sampleCache : Cache :=
  { container := bucketOfWeights [3, 7, 7, 2] :: bucketOfWeights [7, 1]
      :: List.replicate 254 (bucketOfWeights [])
    cache_size := 256
    iterator := none }

/-- A list of three records with the cursor on the second one. -/
def sampleList : OrangeList :=
  { elems := [orangeOfWeight 4, orangeOfWeight 5, orangeOfWeight 6], current := some 1 }

/-! ### Lemmas on the constructor -/

theorem clearFoodCompanies_of_lt (n : Int) (i : Nat) (fc : Nat → Option String) (j : Nat)
    (hj : j < i) : clearFoodCompanies n i fc j = fc j := by
  generalize hk : (n - i).toNat = k
  induction k generalizing i fc with
  | zero =>
    rw [clearFoodCompanies]
    have : ¬ ((i : Int) < n) := by omega
    simp [this]
  | succ k ih =>
    rw [clearFoodCompanies]
    split
    · rw [ih (i + 1) _ (by omega) (by omega)]
      have : j ≠ i := by omega
      simp [this]
    · rfl

theorem clearFoodCompanies_cleared (n : Int) (i : Nat) (fc : Nat → Option String) (j : Nat)
    (hij : i ≤ j) (hjn : (j : Int) < n) : clearFoodCompanies n i fc j = none := by
  generalize hk : (n - i).toNat = k
  induction k generalizing i fc with
  | zero => omega
  | succ k ih =>
    rw [clearFoodCompanies]
    have hin : (i : Int) < n := by omega
    simp only [hin, if_true]
    by_cases hji : j = i
    · subst hji
      rw [clearFoodCompanies_of_lt _ _ _ _ (by omega)]
      simp
    · exact ih (i + 1) _ (by omega) (by omega)

theorem clearFoodCompanies_beyond (n : Int) (i : Nat) (fc : Nat → Option String) (j : Nat)
    (hjn : n ≤ (j : Int)) : clearFoodCompanies n i fc j = fc j := by
  generalize hk : (n - i).toNat = k
  induction k generalizing i fc with
  | zero =>
    rw [clearFoodCompanies]
    have : ¬ ((i : Int) < n) := by omega
    simp [this]
  | succ k ih =>
    rw [clearFoodCompanies]
    split
    · rw [ih (i + 1) _ (by omega)]
      have : j ≠ i := by omega
      simp [this]
    · rfl

theorem orangeCreate_eq_some (h : OrangeHeader) (structAlloc : Bool)
    (arrayAlloc : Option (Nat → Option String))
    (size expirationMonth maxNumberOfFoodCompanies sellingPrice : Int) (o : Orange)
    (hres : orangeCreate h structAlloc arrayAlloc size expirationMonth
      maxNumberOfFoodCompanies sellingPrice = some o) :
    (h.ORANGE_MAX_SIZE ≤ size ∧ ORANGE_MIN_SIZE ≤ size ∧ h.JAN ≤ expirationMonth
      ∧ expirationMonth ≤ h.DEC ∧ 0 < sellingPrice ∧ 0 < maxNumberOfFoodCompanies)
    ∧ structAlloc = true
    ∧ ∃ block, arrayAlloc = some block ∧
        o = { size := size
              expirationMonth := expirationMonth
              maxNumberOfFoodCompanies := maxNumberOfFoodCompanies
              sellingPrice := sellingPrice
              foodCompanies := clearFoodCompanies maxNumberOfFoodCompanies 0 block } := by
  unfold orangeCreate at hres
  split at hres
  · exact absurd hres (by simp)
  · rename_i hargs
    split at hres
    · exact absurd hres (by simp)
    · rename_i hstruct
      cases arrayAlloc with
      | none => exact absurd hres (by simp)
      | some block =>
        simp only [Option.some.injEq] at hres
        refine ⟨?_, by simpa using hstruct, block, rfl, hres.symm⟩
        simp only [not_or, not_lt, not_le, gt_iff_lt] at hargs
        omega


/-! ### Lemmas on the cache scans -/

theorem extractFromList_eq (m : Int) (l : List Orange) :
    extractFromList m l
      = (l.filter (fun o => decide (orangeGetWeight o = m)),
         l.filter (fun o => decide (orangeGetWeight o ≠ m))) := by
  induction l with
  | nil => rfl
  | cons o rest ih =>
    unfold extractFromList
    simp only [ih]
    by_cases hw : orangeGetWeight o = m
    · simp [hw, List.filter_cons]
    · simp [hw, List.filter_cons]

theorem extractFromBuckets_fst (m : Int) (bs : List OrangeList) :
    (extractFromBuckets m bs).1
      = bs.flatMap (fun bucket => bucket.elems.filter (fun o => decide (orangeGetWeight o = m))) := by
  induction bs with
  | nil => rfl
  | cons b rest ih =>
    unfold extractFromBuckets
    simp only [ih, extractFromList_eq, List.flatMap_cons]

theorem extractFromBuckets_snd (m : Int) (bs : List OrangeList) :
    (extractFromBuckets m bs).2.map (fun bucket => bucket.elems)
      = (bs.map (fun bucket => bucket.elems)).map
          (fun l => l.filter (fun o => decide (orangeGetWeight o ≠ m))) := by
  induction bs with
  | nil => rfl
  | cons b rest ih =>
    unfold extractFromBuckets
    simp only [List.map_cons, ih, extractFromList_eq]

theorem maxWeightInList_some (b : Int) (l : List Orange) :
    ∃ r, maxWeightInList (some b) l = some r ∧ b ≤ r ∧ (∀ o ∈ l, orangeGetWeight o ≤ r)
      ∧ (r = b ∨ ∃ o ∈ l, orangeGetWeight o = r) := by
  induction l generalizing b with
  | nil => exact ⟨b, rfl, le_refl b, by simp, Or.inl rfl⟩
  | cons o rest ih =>
    unfold maxWeightInList
    by_cases hlt : b < orangeGetWeight o
    · obtain ⟨r, hr, hle, hall, hatt⟩ := ih (orangeGetWeight o)
      refine ⟨r, by simp [hlt, hr], by omega, ?_, ?_⟩
      · intro x hx
        rcases List.mem_cons.1 hx with rfl | hx
        · exact hle
        · exact hall x hx
      · rcases hatt with rfl | ⟨x, hx, hxr⟩
        · exact Or.inr ⟨o, List.mem_cons_self _ _, rfl⟩
        · exact Or.inr ⟨x, List.mem_cons_of_mem _ hx, hxr⟩
    · obtain ⟨r, hr, hle, hall, hatt⟩ := ih b
      refine ⟨r, by simp [hlt, hr], hle, ?_, ?_⟩
      · intro x hx
        rcases List.mem_cons.1 hx with rfl | hx
        · omega
        · exact hall x hx
      · rcases hatt with rfl | ⟨x, hx, hxr⟩
        · exact Or.inl rfl
        · exact Or.inr ⟨x, List.mem_cons_of_mem _ hx, hxr⟩

theorem maxWeightInList_none (l : List Orange) (hne : l ≠ []) :
    ∃ r, maxWeightInList none l = some r ∧ (∀ o ∈ l, orangeGetWeight o ≤ r)
      ∧ ∃ o ∈ l, orangeGetWeight o = r := by
  cases l with
  | nil => exact absurd rfl hne
  | cons o rest =>
    obtain ⟨r, hr, hle, hall, hatt⟩ := maxWeightInList_some (orangeGetWeight o) rest
    refine ⟨r, by unfold maxWeightInList; exact hr, ?_, ?_⟩
    · intro x hx
      rcases List.mem_cons.1 hx with rfl | hx
      · exact hle
      · exact hall x hx
    · rcases hatt with rfl | ⟨x, hx, hxr⟩
      · exact ⟨o, List.mem_cons_self _ _, rfl⟩
      · exact ⟨x, List.mem_cons_of_mem _ hx, hxr⟩

theorem maxWeightInBuckets_some (b : Int) (bs : List OrangeList) :
    ∃ r, maxWeightInBuckets (some b) bs = some r ∧ b ≤ r
      ∧ (∀ bucket ∈ bs, ∀ o ∈ bucket.elems, orangeGetWeight o ≤ r)
      ∧ (r = b ∨ ∃ bucket ∈ bs, ∃ o ∈ bucket.elems, orangeGetWeight o = r) := by
  induction bs generalizing b with
  | nil => exact ⟨b, rfl, le_refl b, by simp, Or.inl rfl⟩
  | cons bk rest ih =>
    obtain ⟨r1, hr1, hle1, hall1, hatt1⟩ := maxWeightInList_some b bk.elems
    obtain ⟨r, hr, hle, hall, hatt⟩ := ih r1
    refine ⟨r, by unfold maxWeightInBuckets; rw [hr1]; exact hr, by omega, ?_, ?_⟩
    · intro x hx o ho
      rcases List.mem_cons.1 hx with rfl | hx
      · have := hall1 o ho
        omega
      · exact hall x hx o ho
    · rcases hatt with rfl | ⟨x, hx, o, ho, hor⟩
      · rcases hatt1 with rfl | ⟨o, ho, hor⟩
        · exact Or.inl rfl
        · exact Or.inr ⟨bk, List.mem_cons_self _ _, o, ho, hor⟩
      · exact Or.inr ⟨x, List.mem_cons_of_mem _ hx, o, ho, hor⟩

theorem maxWeightInBuckets_none (bs : List OrangeList)
    (hne : bs.all (fun bucket => bucket.elems.isEmpty) = false) :
    ∃ r, maxWeightInBuckets none bs = some r
      ∧ (∀ bucket ∈ bs, ∀ o ∈ bucket.elems, orangeGetWeight o ≤ r)
      ∧ ∃ bucket ∈ bs, ∃ o ∈ bucket.elems, orangeGetWeight o = r := by
  induction bs with
  | nil => simp at hne
  | cons bk rest ih =>
    by_cases hbk : bk.elems = []
    · have hrest : rest.all (fun bucket => bucket.elems.isEmpty) = false := by
        simpa [List.all_cons, hbk] using hne
      obtain ⟨r, hr, hall, x, hx, o, ho, hor⟩ := ih hrest
      refine ⟨r, by unfold maxWeightInBuckets; rw [hbk]; exact hr, ?_,
        x, List.mem_cons_of_mem _ hx, o, ho, hor⟩
      intro y hy o2 ho2
      rcases List.mem_cons.1 hy with rfl | hy
      · rw [hbk] at ho2
        simp at ho2
      · exact hall y hy o2 ho2
    · obtain ⟨r1, hr1, hall1, o1, ho1, hor1⟩ := maxWeightInList_none bk.elems hbk
      obtain ⟨r, hr, hle, hall, hatt⟩ := maxWeightInBuckets_some r1 rest
      refine ⟨r, by unfold maxWeightInBuckets; rw [hr1]; exact hr, ?_, ?_⟩
      · intro y hy o2 ho2
        rcases List.mem_cons.1 hy with rfl | hy
        · have := hall1 o2 ho2
          omega
        · exact hall y hy o2 ho2
      · rcases hatt with rfl | ⟨x, hx, o, ho, hor⟩
        · exact ⟨bk, List.mem_cons_self _ _, o1, ho1, hor1⟩
        · exact ⟨x, List.mem_cons_of_mem _ hx, o, ho, hor⟩

theorem deliver_of_nonempty (cache : Cache) (hne : cacheIsEmpty cache = false) :
    ∃ m, IsMaxWeight cache m
      ∧ (cacheDeliverOrangesWithBiggestWeight (some cache)).1
          = some { elems := recordsOfWeight m cache, current := none }
      ∧ ∃ rest, (cacheDeliverOrangesWithBiggestWeight (some cache)).2 = some rest
          ∧ bucketContents rest
              = (bucketContents cache).map
                  (fun l => l.filter (fun o => decide (orangeGetWeight o ≠ m))) := by
  obtain ⟨m, hm, hall, hatt⟩ := maxWeightInBuckets_none cache.container hne
  refine ⟨m, ⟨hatt, hall⟩, ?_, ?_⟩
  · simp only [cacheDeliverOrangesWithBiggestWeight, hm, recordsOfWeight,
      extractFromBuckets_fst]
  · refine ⟨{ cache with
        container := (extractFromBuckets m cache.container).2, iterator := none },
      by simp only [cacheDeliverOrangesWithBiggestWeight, hm], ?_⟩
    simp only [bucketContents]
    exact extractFromBuckets_snd m cache.container

/-! ### The constructor `orangeCreate` -/

/-- C1 (defect of the code): the arguments size 1, month 1, capacity 1 and price 1 are in the
ranges of the claim whenever `ORANGE_MAX_SIZE` is at least 2 and the months are numbered 1 to
12, and both allocations succeed, but `orangeCreate` returns NULL: the first comparison of
its guard rejects every size below `ORANGE_MAX_SIZE`. -/
theorem orangeCreate_rejects_size_one (k : Nat) (block : Nat → Option String) :
    (ORANGE_MIN_SIZE ≤ 1 ∧ (1 : Int) ≤ (OrangeHeader.mk ((k : Int) + 2) 1 12).ORANGE_MAX_SIZE)
    ∧ orangeCreate (OrangeHeader.mk ((k : Int) + 2) 1 12) true (some block) 1 1 1 1 = none := by
  refine ⟨⟨by decide, by simp; omega⟩, ?_⟩
  have hlt : (1 : Int) < (k : Int) + 2 := by omega
  simp [orangeCreate, hlt]

/-- C2 (defect of the code): with `ORANGE_MAX_SIZE = k + 1` the size `k + 2` exceeds the
declared maximum, yet with month 1, capacity 1, price 1 and both allocations succeeding
`orangeCreate` returns an orange, of that size. -/
theorem orangeCreate_accepts_above_max (k : Nat) (block : Nat → Option String) :
    (OrangeHeader.mk ((k : Int) + 1) 1 12).ORANGE_MAX_SIZE < (k : Int) + 2
    ∧ (orangeCreate (OrangeHeader.mk ((k : Int) + 1) 1 12) true (some block)
        ((k : Int) + 2) 1 1 1).map (fun o => o.size) = some ((k : Int) + 2) := by
  refine ⟨by simp, ?_⟩
  have h1 : ¬ ((k : Int) + 2 < (k : Int) + 1) := by omega
  have h2 : ¬ ((k : Int) + 2 < 1) := by omega
  simp [orangeCreate, ORANGE_MIN_SIZE, h1, h2]

/-- C3: `orangeCreate` returns NULL whenever the size is below 1, or the month is below `JAN`
or above `DEC`, or the price is not positive, or the capacity is not positive, whatever the
other arguments are and whether or not the allocations would succeed. -/
theorem orangeCreate_rejects_out_of_range (h : OrangeHeader) (structAlloc : Bool)
    (arrayAlloc : Option (Nat → Option String))
    (size expirationMonth maxNumberOfFoodCompanies sellingPrice : Int)
    (hbad : size < 1 ∨ expirationMonth < h.JAN ∨ expirationMonth > h.DEC
      ∨ sellingPrice ≤ 0 ∨ maxNumberOfFoodCompanies ≤ 0) :
    orangeCreate h structAlloc arrayAlloc size expirationMonth maxNumberOfFoodCompanies
      sellingPrice = none := by
  unfold orangeCreate
  rw [if_pos]
  simp only [ORANGE_MIN_SIZE]
  tauto

theorem orangeCreate_rejects_out_of_range_witness :
    ((0 : Int) < 1 ∨ (1 : Int) < sampleHeader.JAN ∨ (1 : Int) > sampleHeader.DEC
      ∨ (1 : Int) ≤ 0 ∨ (1 : Int) ≤ 0)
    ∧ orangeCreate sampleHeader true (some staleBlock) 0 1 1 1 = none :=
  ⟨by decide,
    orangeCreate_rejects_out_of_range sampleHeader true (some staleBlock) 0 1 1 1 (by decide)⟩

/-- C4: every orange returned by `orangeCreate` has size at least 1, a positive price, a
month within `JAN..DEC`, a capacity of at least 1, and a company list of length 0 (no
non-NULL entry), which is within the capacity. -/
theorem orangeCreate_invariant (h : OrangeHeader) (structAlloc : Bool)
    (arrayAlloc : Option (Nat → Option String))
    (size expirationMonth maxNumberOfFoodCompanies sellingPrice : Int) (o : Orange)
    (hres : orangeCreate h structAlloc arrayAlloc size expirationMonth
      maxNumberOfFoodCompanies sellingPrice = some o) :
    1 ≤ o.size ∧ 0 < o.sellingPrice ∧ h.JAN ≤ o.expirationMonth ∧ o.expirationMonth ≤ h.DEC
    ∧ 1 ≤ o.maxNumberOfFoodCompanies ∧ orangeCompanyCount o = 0
    ∧ (orangeCompanyCount o : Int) ≤ o.maxNumberOfFoodCompanies := by
  obtain ⟨hargs, -, block, -, ho⟩ := orangeCreate_eq_some _ _ _ _ _ _ _ _ hres
  have hcount : orangeCompanyCount o = 0 := by
    subst ho
    unfold orangeCompanyCount
    rw [List.length_eq_zero, List.filter_eq_nil_iff]
    intro i hi
    rw [List.mem_range] at hi
    have hlt : (i : Int) < maxNumberOfFoodCompanies := by
      simp only at hi
      omega
    have hnone : clearFoodCompanies maxNumberOfFoodCompanies 0 block i = none :=
      clearFoodCompanies_cleared _ _ _ _ (Nat.zero_le i) hlt
    simp [hnone]
  rw [hcount]
  subst ho
  simp only [ORANGE_MIN_SIZE] at hargs
  refine ⟨hargs.2.1, hargs.2.2.2.2.1, hargs.2.2.1, hargs.2.2.2.1, ?_, rfl, ?_⟩
  · show 1 ≤ maxNumberOfFoodCompanies
    omega
  · show ((0 : Nat) : Int) ≤ maxNumberOfFoodCompanies
    omega

theorem orangeCreate_invariant_witness :
    orangeCreate sampleHeader true (some staleBlock) 256 1 3 10 = some sampleOrange
    ∧ (1 ≤ sampleOrange.size ∧ 0 < sampleOrange.sellingPrice
      ∧ sampleHeader.JAN ≤ sampleOrange.expirationMonth
      ∧ sampleOrange.expirationMonth ≤ sampleHeader.DEC
      ∧ 1 ≤ sampleOrange.maxNumberOfFoodCompanies ∧ orangeCompanyCount sampleOrange = 0
      ∧ (orangeCompanyCount sampleOrange : Int) ≤ sampleOrange.maxNumberOfFoodCompanies) :=
  ⟨by simp [orangeCreate, sampleHeader, sampleOrange, ORANGE_MIN_SIZE],
    orangeCreate_invariant sampleHeader true (some staleBlock) 256 1 3 10 sampleOrange
      (by simp [orangeCreate, sampleHeader, sampleOrange, ORANGE_MIN_SIZE])⟩

/-- C9: provided both allocations succeed, `orangeCreate` returns a non-NULL orange if and
only if `size >= ORANGE_MAX_SIZE`, `size >= 1`, `JAN <= month <= DEC`, `price > 0` and
`maxCompanies > 0`, for every value of `ORANGE_MAX_SIZE`.  In particular a size with
`1 <= size < ORANGE_MAX_SIZE` is never accepted, and the accepted sizes have no upper bound:
whenever a size is accepted every larger one is, up to the largest `short`. -/
theorem orangeCreate_accepts_iff (h : OrangeHeader) (block : Nat → Option String)
    (size expirationMonth maxNumberOfFoodCompanies sellingPrice : Int) :
    (orangeCreate h true (some block) size expirationMonth maxNumberOfFoodCompanies
        sellingPrice ≠ none
      ↔ (h.ORANGE_MAX_SIZE ≤ size ∧ 1 ≤ size ∧ h.JAN ≤ expirationMonth
          ∧ expirationMonth ≤ h.DEC ∧ 0 < sellingPrice ∧ 0 < maxNumberOfFoodCompanies))
    ∧ (1 ≤ size → size < h.ORANGE_MAX_SIZE →
        orangeCreate h true (some block) size expirationMonth maxNumberOfFoodCompanies
          sellingPrice = none)
    ∧ (∀ larger : Int, size ≤ larger →
        orangeCreate h true (some block) size expirationMonth maxNumberOfFoodCompanies
          sellingPrice ≠ none →
        orangeCreate h true (some block) larger expirationMonth maxNumberOfFoodCompanies
          sellingPrice ≠ none)
    ∧ (size ≤ SHRT_MAX →
        orangeCreate h true (some block) size expirationMonth maxNumberOfFoodCompanies
          sellingPrice ≠ none →
        orangeCreate h true (some block) SHRT_MAX expirationMonth maxNumberOfFoodCompanies
          sellingPrice ≠ none) := by
  have key : ∀ s : Int,
      (orangeCreate h true (some block) s expirationMonth maxNumberOfFoodCompanies
          sellingPrice ≠ none
        ↔ (h.ORANGE_MAX_SIZE ≤ s ∧ 1 ≤ s ∧ h.JAN ≤ expirationMonth
            ∧ expirationMonth ≤ h.DEC ∧ 0 < sellingPrice ∧ 0 < maxNumberOfFoodCompanies)) := by
    intro s
    unfold orangeCreate
    simp only [ORANGE_MIN_SIZE]
    split
    · rename_i hargs
      simp only [ne_eq, not_true_eq_false, false_iff]
      omega
    · rename_i hargs
      simp only [Bool.true_eq_false, if_false, ne_eq, reduceCtorEq, not_false_eq_true, true_iff]
      omega
  refine ⟨key size, ?_, ?_, ?_⟩
  · intro h1 hlt
    by_contra hne
    have := (key size).1 hne
    omega
  · intro larger hle hacc
    have := (key size).1 hacc
    exact (key larger).2 (by omega)
  · intro hle hacc
    have := (key size).1 hacc
    exact (key SHRT_MAX).2 (by omega)

theorem orangeCreate_accepts_iff_witness :
    (orangeCreate sampleHeader true (some staleBlock) 256 1 3 10 ≠ none
      ↔ (sampleHeader.ORANGE_MAX_SIZE ≤ 256 ∧ (1 : Int) ≤ 256 ∧ sampleHeader.JAN ≤ 1
          ∧ 1 ≤ sampleHeader.DEC ∧ (0 : Int) < 10 ∧ (0 : Int) < 3))
    ∧ orangeCreate sampleHeader true (some staleBlock) 255 1 3 10 = none
    ∧ orangeCreate sampleHeader true (some staleBlock) SHRT_MAX 1 3 10 ≠ none :=
  ⟨(orangeCreate_accepts_iff sampleHeader staleBlock 256 1 3 10).1,
    (orangeCreate_accepts_iff sampleHeader staleBlock 255 1 3 10).2.1 (by decide) (by decide),
    (orangeCreate_accepts_iff sampleHeader staleBlock 256 1 3 10).2.2.2 (by decide)
      (by simp [orangeCreate, sampleHeader, ORANGE_MIN_SIZE])⟩

/-- C10: when `orangeCreate` returns an orange, its size, month, capacity and price fields
equal the arguments, each of the `maxNumberOfFoodCompanies` cells of its company array is
NULL, and the memory past these cells is as the allocation left it (no other cell is
written); when either of the two allocations fails, `orangeCreate` returns NULL. -/
theorem orangeCreate_result (h : OrangeHeader) (structAlloc : Bool)
    (arrayAlloc : Option (Nat → Option String))
    (size expirationMonth maxNumberOfFoodCompanies sellingPrice : Int) :
    (∀ o, orangeCreate h structAlloc arrayAlloc size expirationMonth maxNumberOfFoodCompanies
        sellingPrice = some o →
      o.size = size ∧ o.expirationMonth = expirationMonth
      ∧ o.maxNumberOfFoodCompanies = maxNumberOfFoodCompanies ∧ o.sellingPrice = sellingPrice
      ∧ (∀ i : Nat, (i : Int) < maxNumberOfFoodCompanies → o.foodCompanies i = none)
      ∧ (∀ block, arrayAlloc = some block →
          ∀ i : Nat, maxNumberOfFoodCompanies ≤ (i : Int) → o.foodCompanies i = block i))
    ∧ (structAlloc = false ∨ arrayAlloc = none →
        orangeCreate h structAlloc arrayAlloc size expirationMonth maxNumberOfFoodCompanies
          sellingPrice = none) := by
  constructor
  · intro o hres
    obtain ⟨-, -, block, hblock, ho⟩ := orangeCreate_eq_some _ _ _ _ _ _ _ _ hres
    subst ho
    refine ⟨rfl, rfl, rfl, rfl, ?_, ?_⟩
    · intro i hi
      exact clearFoodCompanies_cleared _ _ _ _ (Nat.zero_le i) hi
    · intro block2 hblock2 i hi
      rw [hblock] at hblock2
      cases hblock2
      exact clearFoodCompanies_beyond _ _ _ _ hi
  · intro hfail
    unfold orangeCreate
    split
    · rfl
    · rcases hfail with hs | ha
      · simp [hs]
      · simp [ha]

theorem orangeCreate_result_witness :
    orangeCreate sampleHeader true (some staleBlock) 256 1 3 10 = some sampleOrange
    ∧ (sampleOrange.size = 256 ∧ sampleOrange.expirationMonth = 1
      ∧ sampleOrange.maxNumberOfFoodCompanies = 3 ∧ sampleOrange.sellingPrice = 10
      ∧ (∀ i : Nat, (i : Int) < 3 → sampleOrange.foodCompanies i = none)
      ∧ (∀ block, some staleBlock = some block →
          ∀ i : Nat, (3 : Int) ≤ (i : Int) → sampleOrange.foodCompanies i = block i))
    ∧ orangeCreate sampleHeader false (some staleBlock) 256 1 3 10 = none
    ∧ orangeCreate sampleHeader true none 256 1 3 10 = none :=
  ⟨by simp [orangeCreate, sampleHeader, sampleOrange, ORANGE_MIN_SIZE],
    (orangeCreate_result sampleHeader true (some staleBlock) 256 1 3 10).1 sampleOrange
      (by simp [orangeCreate, sampleHeader, sampleOrange, ORANGE_MIN_SIZE]),
    (orangeCreate_result sampleHeader false (some staleBlock) 256 1 3 10).2 (Or.inl rfl),
    (orangeCreate_result sampleHeader true none 256 1 3 10).2 (Or.inr rfl)⟩

/-! ### The cache -/

/-- C5: on a cache holding at least one record, with `m` the maximum weight over all records
in all buckets, `cacheDeliverOrangesWithBiggestWeight` returns the list of exactly the
records of weight `m`, ordered by ascending bucket index and then by position inside the
bucket; afterwards every bucket holds its records of weight other than `m` in their
original order and the cache holds no record of weight `m`; and if records are left, a
second call returns the records of the new maximum, which is below `m`, not an error. -/
theorem cacheDeliver_biggest_weight (cache : Cache) (hne : cacheIsEmpty cache = false) :
    ∃ m, IsMaxWeight cache m
      ∧ (cacheDeliverOrangesWithBiggestWeight (some cache)).1
          = some { elems := recordsOfWeight m cache, current := none }
      ∧ ∃ rest, (cacheDeliverOrangesWithBiggestWeight (some cache)).2 = some rest
          ∧ bucketContents rest
              = (bucketContents cache).map
                  (fun l => l.filter (fun o => decide (orangeGetWeight o ≠ m)))
          ∧ (∀ bucket ∈ rest.container, ∀ o ∈ bucket.elems, orangeGetWeight o ≠ m)
          ∧ (cacheIsEmpty rest = false →
              ∃ m2, m2 < m ∧ IsMaxWeight rest m2
                ∧ (cacheDeliverOrangesWithBiggestWeight (some rest)).1
                    = some { elems := recordsOfWeight m2 rest, current := none }) := by
  obtain ⟨m, hmax, hlist, rest, hrest, hcontents⟩ := deliver_of_nonempty cache hne
  have hleft : ∀ bucket ∈ rest.container, ∀ o ∈ bucket.elems,
      orangeGetWeight o ≠ m ∧ orangeGetWeight o ≤ m := by
    intro bucket hb o ho
    have hmem : bucket.elems ∈ bucketContents rest := List.mem_map.2 ⟨bucket, hb, rfl⟩
    rw [hcontents] at hmem
    simp only [bucketContents, List.map_map, List.mem_map, Function.comp] at hmem
    obtain ⟨orig, horig, heq⟩ := hmem
    rw [← heq, List.mem_filter] at ho
    exact ⟨by simpa using ho.2, hmax.2 orig horig o ho.1⟩
  refine ⟨m, hmax, hlist, rest, hrest, hcontents, fun b hb o ho => (hleft b hb o ho).1, ?_⟩
  intro hne2
  obtain ⟨m2, hmax2, hlist2, -⟩ := deliver_of_nonempty rest hne2
  refine ⟨m2, ?_, hmax2, hlist2⟩
  obtain ⟨b, hb, o, ho, hw⟩ := hmax2.1
  have := hleft b hb o ho
  omega

set_option maxRecDepth 100000 in
theorem cacheDeliver_biggest_weight_witness :
    cacheIsEmpty sampleCache = false
    ∧ (∃ m, IsMaxWeight sampleCache m
      ∧ (cacheDeliverOrangesWithBiggestWeight (some sampleCache)).1
          = some { elems := recordsOfWeight m sampleCache, current := none }
      ∧ ∃ rest, (cacheDeliverOrangesWithBiggestWeight (some sampleCache)).2 = some rest
          ∧ bucketContents rest
              = (bucketContents sampleCache).map
                  (fun l => l.filter (fun o => decide (orangeGetWeight o ≠ m)))
          ∧ (∀ bucket ∈ rest.container, ∀ o ∈ bucket.elems, orangeGetWeight o ≠ m)
          ∧ (cacheIsEmpty rest = false →
              ∃ m2, m2 < m ∧ IsMaxWeight rest m2
                ∧ (cacheDeliverOrangesWithBiggestWeight (some rest)).1
                    = some { elems := recordsOfWeight m2 rest, current := none }))
    ∧ (cacheDeliverOrangesWithBiggestWeight (some sampleCache)).1.map
        (fun l => l.elems.map orangeGetWeight) = some [7, 7, 7]
    ∧ (cacheDeliverOrangesWithBiggestWeight (some sampleCache)).2.map
        (fun c => (bucketContents c).map (fun l => l.map orangeGetWeight))
        = some ([3, 2] :: [1] :: List.replicate 254 [])
    ∧ (cacheDeliverOrangesWithBiggestWeight
        (cacheDeliverOrangesWithBiggestWeight (some sampleCache)).2).1.map
        (fun l => l.elems.map orangeGetWeight) = some [3] :=
  ⟨by decide, cacheDeliver_biggest_weight sampleCache (by decide), by decide, by decide,
    by decide⟩

/-- C7: for every cache and every index outside `0..ORANGE_CACHE_SIZE-1` (with
`ORANGE_CACHE_SIZE = 256`), `cacheFreeOrange` and `cacheGet` return `CACHE_OUT_OF_RANGE`; for
every index inside these bounds whose bucket is empty they return
`CACHE_NO_ELEMENTS_IN_CELL`; in both cases the cache is left unchanged (and `cacheGet` stores
no record). -/
theorem cache_index_bounds (cache : Cache) (index : Int) :
    ORANGE_CACHE_SIZE = 256
    ∧ (index < 0 ∨ ORANGE_CACHE_SIZE - 1 < index →
        cacheFreeOrange (some cache) index = (CacheResult.CACHE_OUT_OF_RANGE, some cache)
        ∧ cacheGet (some cache) index = (CacheResult.CACHE_OUT_OF_RANGE, none, some cache))
    ∧ (0 ≤ index → index ≤ ORANGE_CACHE_SIZE - 1 →
        ∀ bucket, cache.container[index.toNat]? = some bucket → bucket.elems = [] →
          cacheFreeOrange (some cache) index
            = (CacheResult.CACHE_NO_ELEMENTS_IN_CELL, some cache)
          ∧ cacheGet (some cache) index
            = (CacheResult.CACHE_NO_ELEMENTS_IN_CELL, none, some cache)) := by
  refine ⟨rfl, ?_, ?_⟩
  · intro hout
    have hcond : index < 0 ∨ ORANGE_CACHE_SIZE ≤ index := by
      rcases hout with h | h
      · exact Or.inl h
      · exact Or.inr (by omega)
    simp [cacheFreeOrange, cacheGet, hcond]
  · intro h0 h1 bucket hbucket hnil
    have hcond : ¬ (index < 0 ∨ ORANGE_CACHE_SIZE ≤ index) := by
      intro h
      rcases h with h | h <;> omega
    simp [cacheFreeOrange, cacheGet, hcond, hbucket, hnil]

set_option maxRecDepth 100000 in
theorem cache_index_bounds_witness :
    (cacheFreeOrange (some sampleCache) 256 = (CacheResult.CACHE_OUT_OF_RANGE, some sampleCache)
      ∧ cacheGet (some sampleCache) 256
          = (CacheResult.CACHE_OUT_OF_RANGE, none, some sampleCache))
    ∧ (cacheFreeOrange (some sampleCache) (-1)
          = (CacheResult.CACHE_OUT_OF_RANGE, some sampleCache)
      ∧ cacheGet (some sampleCache) (-1)
          = (CacheResult.CACHE_OUT_OF_RANGE, none, some sampleCache))
    ∧ (cacheFreeOrange (some sampleCache) 255
          = (CacheResult.CACHE_NO_ELEMENTS_IN_CELL, some sampleCache)
      ∧ cacheGet (some sampleCache) 255
          = (CacheResult.CACHE_NO_ELEMENTS_IN_CELL, none, some sampleCache)) :=
  ⟨(cache_index_bounds sampleCache 256).2.1 (Or.inr (by decide)),
    (cache_index_bounds sampleCache (-1)).2.1 (Or.inl (by decide)),
    (cache_index_bounds sampleCache 255).2.2 (by decide) (by decide) (bucketOfWeights [])
      (by rfl) rfl⟩

/-! ### The list cursor -/

/-- C8: for every list with a valid current element, `listRemoveCurrent` returns
`LIST_SUCCESS` and the size of the list is one less; on the list it leaves, `listGetNext` and
`listGetCurrent` return NULL and `listRemoveCurrent` returns `LIST_INVALID_CURRENT`; and if
that list is not empty, `listGetFirst` returns its first record and leaves a valid cursor,
at which `listGetCurrent` returns that record. -/
theorem listRemoveCurrent_invalidates (l : OrangeList) (hvalid : hasValidCurrent l = true) :
    (listRemoveCurrent (some l)).1 = ListResult.LIST_SUCCESS
    ∧ listGetSize (listRemoveCurrent (some l)).2 = listGetSize (some l) - 1
    ∧ (listGetNext (listRemoveCurrent (some l)).2).1 = none
    ∧ listGetCurrent (listRemoveCurrent (some l)).2 = none
    ∧ (listRemoveCurrent (listRemoveCurrent (some l)).2).1 = ListResult.LIST_INVALID_CURRENT
    ∧ (0 < listGetSize (listRemoveCurrent (some l)).2 →
        (listGetFirst (listRemoveCurrent (some l)).2).1 ≠ none
        ∧ (listGetFirst (listRemoveCurrent (some l)).2).2.map hasValidCurrent = some true
        ∧ listGetCurrent (listGetFirst (listRemoveCurrent (some l)).2).2
            = (listGetFirst (listRemoveCurrent (some l)).2).1) := by
  obtain ⟨elems, current⟩ := l
  cases current with
  | none => simp [hasValidCurrent] at hvalid
  | some i =>
    have hi : i < elems.length := by simpa [hasValidCurrent] using hvalid
    have hpos : 0 < elems.length := by omega
    simp only [listRemoveCurrent, hi, if_true, listGetSize, listGetNext, listGetCurrent,
      List.length_eraseIdx, true_and]
    refine ⟨by omega, ?_⟩
    intro hleft
    cases hrest : elems.eraseIdx i with
    | nil =>
      have hlen := congrArg List.length hrest
      simp only [List.length_eraseIdx, hi, if_true, List.length_nil] at hlen
      omega
    | cons o rest => simp [listGetFirst, hrest, hasValidCurrent, listGetCurrent]

theorem listRemoveCurrent_invalidates_witness :
    hasValidCurrent sampleList = true
    ∧ ((listRemoveCurrent (some sampleList)).1 = ListResult.LIST_SUCCESS
      ∧ listGetSize (listRemoveCurrent (some sampleList)).2 = listGetSize (some sampleList) - 1
      ∧ (listGetNext (listRemoveCurrent (some sampleList)).2).1 = none
      ∧ listGetCurrent (listRemoveCurrent (some sampleList)).2 = none
      ∧ (listRemoveCurrent (listRemoveCurrent (some sampleList)).2).1
          = ListResult.LIST_INVALID_CURRENT
      ∧ (0 < listGetSize (listRemoveCurrent (some sampleList)).2 →
          (listGetFirst (listRemoveCurrent (some sampleList)).2).1 ≠ none
          ∧ (listGetFirst (listRemoveCurrent (some sampleList)).2).2.map hasValidCurrent
              = some true
          ∧ listGetCurrent (listGetFirst (listRemoveCurrent (some sampleList)).2).2
              = (listGetFirst (listRemoveCurrent (some sampleList)).2).1))
    ∧ listGetSize (listRemoveCurrent (some sampleList)).2 = 2
    ∧ (listGetCurrent (listGetFirst (listRemoveCurrent (some sampleList)).2).2).map
        orangeGetWeight = some 4 :=
  ⟨by decide, listRemoveCurrent_invalidates sampleList (by decide), by decide, by decide⟩

end Atm
